import Mathlib

/-!
Verification development for the automated error-detection-and-remediation
loop of `auto_fix_errors.py` (class `ErrorFixer`).

File contents are modelled as `List Char`; Python `str` operations
(`in`, `startswith`, `str.replace`, the regexes used by the script) are
embedded as executable functions below, each following the corresponding
call sites in the source.  Recursions over text are written with an explicit
`fuel` argument (always called with `fuel ≥ length of the text`) so that all
definitions compute by kernel reduction.
-/

/-- Python `s.startswith(p)` / anchored regex-literal match on char lists. -/
def preL : List Char → List Char → Bool
  | [], _ => true
  | _ :: _, [] => false
  | a :: p, b :: s => a == b && preL p s

/-- Python `p in s` (substring test) on char lists. -/
def subL (p : List Char) : List Char → Bool
  | [] => p.isEmpty
  | c :: s => preL p (c :: s) || subL p s

/-- Worker for Python `s.replace(old, new)`: left-to-right non-overlapping
replacement of every occurrence of `p` by `q`. -/
def replaceAllAux (p q : List Char) : Nat → List Char → List Char
  | _, [] => []
  | 0, s => s
  | fuel + 1, c :: s =>
    if preL p (c :: s) && !p.isEmpty then
      q ++ replaceAllAux p q fuel (List.drop (p.length - 1) s)
    else
      c :: replaceAllAux p q fuel s

/-- Python `s.replace(old, new)`. -/
def replaceAllL (p q s : List Char) : List Char := replaceAllAux p q s.length s

/-- The literal `"noEmit": true` searched for by `fix_tsconfig_no_emit`. -/
def noEmitTrue : List Char := "\"noEmit\": true".toList

/-- The literal `"noEmit": false` written by `fix_tsconfig_no_emit`. -/
def noEmitFalse : List Char := "\"noEmit\": false".toList

/-- Content-level embedding of `fix_tsconfig_no_emit` (lines 240-262): if the
content contains `"noEmit": true`, replace every occurrence by
`"noEmit": false` and report applied; otherwise leave the content unchanged
(no write) and report not applied. -/
def fixTsconfigContent (content : List Char) : List Char × Bool :=
  if subL noEmitTrue content then
    (replaceAllL noEmitTrue noEmitFalse content, true)
  else
    (content, false)

section NoEmitLemmas

/-- The pattern `"noEmit": true` never occurs starting inside the replacement
text `"noEmit": false`: every candidate start position mismatches within the
replacement, whatever follows it. -/
lemma subL_noEmit_append (r : List Char) :
    subL noEmitTrue (noEmitFalse ++ r) = subL noEmitTrue r := rfl

/-- Dropping `k ≥ 1` chars of the pattern never yields a prefix of the
replacement text followed by anything: the mismatch is inside the
replacement. -/
lemma preL_drop_noEmitFalse (r : List Char) (k : Nat) (h1 : 1 ≤ k) (h13 : k ≤ 13) :
    preL (noEmitTrue.drop k) (noEmitFalse ++ r) = false := by
  interval_cases k <;> rfl

/-- If a proper tail of the pattern is not a prefix of `s`, it is not a prefix
of the replaced text either: replacement never creates a new partial
occurrence of the pattern. -/
lemma preL_drop_replaceAll (fuel : Nat) :
    ∀ s k, 1 ≤ k → s.length ≤ fuel → preL (noEmitTrue.drop k) s = false →
      preL (noEmitTrue.drop k) (replaceAllAux noEmitTrue noEmitFalse fuel s) = false := by
  induction fuel with
  | zero =>
    intro s k _ hs h
    have : s = [] := List.eq_nil_of_length_eq_zero (Nat.le_zero.mp hs)
    subst this
    simpa [replaceAllAux] using h
  | succ fuel ih =>
    intro s k hk hs h
    match s with
    | [] => simpa [replaceAllAux] using h
    | c :: s =>
      by_cases hm : preL noEmitTrue (c :: s) = true
      · simp only [replaceAllAux]
        rw [if_pos (by rw [hm]; rfl)]
        rcases Nat.lt_or_ge k 14 with hlt | hge
        · exact preL_drop_noEmitFalse _ k hk (by omega)
        · exfalso
          have hnil : noEmitTrue.drop k = [] :=
            List.drop_eq_nil_of_le (by simp [noEmitTrue]; omega)
          rw [hnil] at h
          simp [preL] at h
      · simp only [replaceAllAux]
        rw [if_neg (by simp [hm])]
        rcases Nat.lt_or_ge k 14 with hlt | hge
        · obtain ⟨a, t, hat⟩ : ∃ a t, noEmitTrue.drop k = a :: t := by
            cases hd : noEmitTrue.drop k with
            | nil =>
              exfalso
              have := congrArg List.length hd
              simp [noEmitTrue] at this
              omega
            | cons a t => exact ⟨a, t, rfl⟩
          have ht : t = noEmitTrue.drop (k + 1) := by
            have := List.tail_drop noEmitTrue k
            rw [hat] at this
            simpa using this
          rw [hat] at h ⊢
          simp only [preL, Bool.and_eq_false_iff] at h ⊢
          rcases h with h | h
          · exact Or.inl h
          · right
            rw [ht] at h ⊢
            exact ih s (k + 1) (by omega) (by simp at hs; omega) h
        · have hnil : noEmitTrue.drop k = [] :=
            List.drop_eq_nil_of_le (by simp [noEmitTrue]; omega)
          rw [hnil] at h
          simp [preL] at h

/-- Core idempotence fact: a replaced content never contains the pattern
`"noEmit": true` any more. -/
lemma subL_replaceAll_noEmit (fuel : Nat) :
    ∀ s, s.length ≤ fuel →
      subL noEmitTrue (replaceAllAux noEmitTrue noEmitFalse fuel s) = false := by
  induction fuel with
  | zero =>
    intro s hs
    have : s = [] := List.eq_nil_of_length_eq_zero (Nat.le_zero.mp hs)
    subst this
    simp [replaceAllAux, subL, noEmitTrue]
  | succ fuel ih =>
    intro s hs
    match s with
    | [] => simp [replaceAllAux, subL, noEmitTrue]
    | c :: s =>
      by_cases hm : preL noEmitTrue (c :: s) = true
      · simp only [replaceAllAux]
        rw [if_pos (by rw [hm]; rfl)]
        rw [subL_noEmit_append]
        refine ih _ ?_
        have := List.length_drop (noEmitTrue.length - 1) s
        simp at hs
        omega
      · simp only [replaceAllAux]
        rw [if_neg (by simp [hm])]
        have htail : subL noEmitTrue (replaceAllAux noEmitTrue noEmitFalse fuel s) = false :=
          ih s (by simp at hs; omega)
        simp only [subL, Bool.or_eq_false_iff]
        refine ⟨?_, htail⟩
        have hstep : preL noEmitTrue (c :: replaceAllAux noEmitTrue noEmitFalse fuel s) =
            ('"' == c && preL (noEmitTrue.drop 1) (replaceAllAux noEmitTrue noEmitFalse fuel s)) :=
          rfl
        by_cases hc : ('"' == c) = true
        · have hcs : preL (noEmitTrue.drop 1) s = false := by
            have h0 : preL noEmitTrue (c :: s) = ('"' == c && preL (noEmitTrue.drop 1) s) := rfl
            simp only [Bool.not_eq_true] at hm
            rw [h0, hc, Bool.true_and] at hm
            exact hm
          rw [hstep, preL_drop_replaceAll fuel s 1 (by omega) (by simp at hs; omega) hcs,
            Bool.and_false]
        · simp only [Bool.not_eq_true] at hc
          rw [hstep, hc, Bool.false_and]

end NoEmitLemmas

/-- Claim C6 — the `tsconfig_no_emit` strategy is idempotent: a second application
returns the same content and reports `applied = false`, and when the flag is
absent the strategy performs no write (content unchanged) and reports
`applied = false`. -/
theorem c6_tsconfig_idempotent (content : List Char) :
    (fixTsconfigContent (fixTsconfigContent content).1).1 = (fixTsconfigContent content).1 ∧
    (fixTsconfigContent (fixTsconfigContent content).1).2 = false ∧
    (subL noEmitTrue content = false → fixTsconfigContent content = (content, false)) := by
  by_cases h : subL noEmitTrue content = true
  · have h1 : fixTsconfigContent content =
        (replaceAllL noEmitTrue noEmitFalse content, true) := by
      unfold fixTsconfigContent; rw [if_pos h]
    have hno : subL noEmitTrue (replaceAllL noEmitTrue noEmitFalse content) = false :=
      subL_replaceAll_noEmit content.length content le_rfl
    have h2 : fixTsconfigContent (replaceAllL noEmitTrue noEmitFalse content) =
        (replaceAllL noEmitTrue noEmitFalse content, false) := by
      unfold fixTsconfigContent; rw [if_neg (by simp [hno])]
    refine ⟨?_, ?_, ?_⟩
    · rw [h1]; simp only [h2]
    · rw [h1]; simp only [h2]
    · intro hc; rw [h] at hc; exact absurd hc (by simp)
  · have h1 : fixTsconfigContent content = (content, false) := by
      unfold fixTsconfigContent; rw [if_neg h]
    refine ⟨?_, ?_, fun _ => h1⟩
    · rw [h1]; simp only [h1]
    · rw [h1]; simp only [h1]

/-- Witness for `C6` at a concrete tsconfig content containing the flag. -/
theorem c6_witness :
    (fixTsconfigContent (fixTsconfigContent ("x \"noEmit\": true y".toList)).1).2 = false ∧
    fixTsconfigContent ("x \"y\": 1 z".toList) = ("x \"y\": 1 z".toList, false) :=
  ⟨(c6_tsconfig_idempotent ("x \"noEmit\": true y".toList)).2.1,
   (c6_tsconfig_idempotent ("x \"y\": 1 z".toList)).2.2 (by decide)⟩

/-! ## Service names and log paths -/

/-- The literal `"container"`. -/
def containerName : List Char := "container".toList

/-- The apps scanned by `get_webpack_errors` (line 86). -/
def frontendApps : List (List Char) :=
  ["container".toList, "user-management-app".toList, "data-grid-app".toList,
   "analytics-app".toList, "settings-app".toList]

/-- The log file read by the build-log adapter for app `app`:
`project_root / "frontend" / app / f"{app}.log"` (line 89). -/
def adapterLogPath (root app : List Char) : List Char :=
  root ++ "/frontend/".toList ++ app ++ '/' :: app ++ ".log".toList

/-- Directory name used by `restart_service`: `app if app == "container" else f"{app}-app"`
(line 490). -/
def restartDirName (app : List Char) : List Char :=
  if app == containerName then app else app ++ "-app".toList

/-- The log file `restart_service` truncates and redirects output to
(lines 502-509). -/
def restartLogPath (root app : List Char) : List Char :=
  root ++ "/frontend/".toList ++ restartDirName app ++ '/' :: restartDirName app ++ ".log".toList

/-- Claim C10 — for every app name other than `"container"` (as carried in build-log
events, which already end in `-app`), the log file `restart_service` writes is a
different path from the log file the build-log adapter reads for that app; the
two coincide exactly for `"container"`. -/
theorem c10_log_path_mismatch (root app : List Char) :
    (app ≠ containerName → restartLogPath root app ≠ adapterLogPath root app) ∧
    restartLogPath root containerName = adapterLogPath root containerName := by
  constructor
  · intro hne heq
    have hdir : restartDirName app = app ++ "-app".toList := by
      unfold restartDirName
      rw [if_neg (by simpa using hne)]
    have hlen := congrArg List.length heq
    rw [restartLogPath, adapterLogPath, hdir] at hlen
    simp [List.length_append] at hlen
  · have : restartDirName containerName = containerName := by
      unfold restartDirName
      rw [if_pos (by rfl)]
    rw [restartLogPath, this, adapterLogPath]

/-- Witness for `C10` at the `user-management-app` build-log service name. -/
theorem c10_witness :
    restartLogPath [] ("user-management-app".toList) ≠
      adapterLogPath [] ("user-management-app".toList) :=
  (c10_log_path_mismatch [] ("user-management-app".toList)).1 (by decide)

/-! ## Character classes and small regex helpers

These embed the pieces of Python `re` behaviour the script relies on.  All
patterns used by the script have deterministic matching (greedy runs over a
character class followed by a literal that is excluded from the class, or lazy
runs tried shortest-first), which the functions below implement directly.
-/

/-- Python `\w` (ASCII part, which is all the script's inputs use). -/
def isWordChar (c : Char) : Bool := c.isAlphanum || c == '_'

/-- Python `\s` / `str.strip` whitespace (ASCII part). -/
def isSpaceChar (c : Char) : Bool :=
  c == ' ' || c == '\t' || c == '\n' || c == '\r' || c == '\x0b' || c == '\x0c'

/-- Expect the literal `lit` as a prefix; return the remainder. -/
def dropLit (lit s : List Char) : Option (List Char) :=
  if preL lit s then some (s.drop lit.length) else none

/-- Python `str.strip()`. -/
def pyStrip (s : List Char) : List Char :=
  ((s.dropWhile isSpaceChar).reverse.dropWhile isSpaceChar).reverse

/-- Decimal digit string to `int`. -/
def digitsToNat (l : List Char) : Nat :=
  l.foldl (fun n c => n * 10 + (c.toNat - '0'.toNat)) 0

/-! ## The three webpack event families (lines 96-159)

The TypeScript-diagnostic regex (line 100) is
`ERROR in (.+?\.tsx?)\n.*?\[tsl\] ERROR in \1\((\d+),(\d+)\)\n\s+TS(\d+): (.+?)(?=\n\n|\nERROR|\Z)`
with `re.DOTALL`, scanned by `finditer` (leftmost, non-overlapping; lazy
groups shortest-first; `x?` and the `\d+`/`\s+` runs greedy).
-/

/-- Captures of one TypeScript-diagnostic block. -/
structure TsRaw where
  file : List Char
  line : List Char
  col : List Char
  code : List Char
  msg : List Char
deriving DecidableEq

def litErrorInSp : List Char := "ERROR in ".toList

def litTsl : List Char := "[tsl] ERROR in ".toList

def litTS : List Char := "TS".toList

def litColonSpace : List Char := ": ".toList

/-- The lookahead `(?=\n\n|\nERROR|\Z)` ending the message capture. -/
def tsBoundary : List Char → Bool
  | [] => true
  | '\n' :: '\n' :: _ => true
  | '\n' :: 'E' :: 'R' :: 'R' :: 'O' :: 'R' :: _ => true
  | _ => false

/-- Lazy `(.+?)` up to the boundary: smallest `n ≥ 1` with the boundary
holding after `n` message chars. -/
def msgSearchAux (r : List Char) : Nat → Nat → Option Nat
  | 0, _ => none
  | fuel + 1, n => if tsBoundary (r.drop n) then some n else msgSearchAux r fuel (n + 1)

def msgSearch (r : List Char) : Option Nat := msgSearchAux r r.length 1

/-- Match the part of the diagnostic block after the first line, anchored:
`[tsl] ERROR in <file>(<line>,<col>)\n\s+TS<code>: <msg>`.  Returns the
captures and the number of chars consumed. -/
def tsTailAt (file r : List Char) : Option (TsRaw × Nat) := do
  let r1 ← dropLit litTsl r
  let r2 ← dropLit file r1
  let r3 ← dropLit ['('] r2
  let line := r3.takeWhile Char.isDigit
  if line.isEmpty then none else do
  let r4 ← dropLit [','] (r3.dropWhile Char.isDigit)
  let col := r4.takeWhile Char.isDigit
  if col.isEmpty then none else do
  let r5 ← dropLit [')', '\n'] (r4.dropWhile Char.isDigit)
  let sp := r5.takeWhile isSpaceChar
  if sp.isEmpty then none else do
  let r6 ← dropLit litTS (r5.dropWhile isSpaceChar)
  let code := r6.takeWhile Char.isDigit
  if code.isEmpty then none else do
  let r7 ← dropLit litColonSpace (r6.dropWhile Char.isDigit)
  let n ← msgSearch r7
  some (⟨file, line, col, code, r7.take n⟩, r.length - (r7.length - n))

/-- Lazy `.*?` before the tail: try offsets `m = 0, 1, …` shortest-first. -/
def tsTailSearchAux (file r : List Char) : Nat → Nat → Option (TsRaw × Nat)
  | 0, _ => none
  | fuel + 1, m =>
    match tsTailAt file (r.drop m) with
    | some (raw, consumed) => some (raw, m + consumed)
    | none => tsTailSearchAux file r fuel (m + 1)

def tsTailSearch (file r : List Char) : Option (TsRaw × Nat) :=
  tsTailSearchAux file r (r.length + 1) 0

/-- Group 1 `(.+?\.tsx?)` followed by `\n`, at lazy offset `k`: the capture is
`rest.take k` plus `.tsx` (preferred, `x?` greedy) or `.ts`. -/
def tsAtOffset (rest : List Char) (k : Nat) : Option (TsRaw × Nat) :=
  match rest.drop k with
  | '.' :: 't' :: 's' :: 'x' :: '\n' :: _ =>
    match tsTailSearch (rest.take (k + 4)) (rest.drop (k + 5)) with
    | some (raw, consumed) => some (raw, k + 5 + consumed)
    | none => none
  | '.' :: 't' :: 's' :: '\n' :: _ =>
    match tsTailSearch (rest.take (k + 3)) (rest.drop (k + 4)) with
    | some (raw, consumed) => some (raw, k + 4 + consumed)
    | none => none
  | _ => none

/-- Lazy search over group-1 lengths `k = 1, 2, …`. -/
def tsFileLoopAux (rest : List Char) : Nat → Nat → Option (TsRaw × Nat)
  | 0, _ => none
  | fuel + 1, k =>
    match tsAtOffset rest k with
    | some res => some res
    | none => tsFileLoopAux rest fuel (k + 1)

/-- One attempt of the whole diagnostic pattern anchored at `s`; returns the
captures and total consumed length. -/
def tsTryAt (s : List Char) : Option (TsRaw × Nat) :=
  match dropLit litErrorInSp s with
  | none => none
  | some rest =>
    match tsFileLoopAux rest rest.length 1 with
    | some (raw, consumed) => some (raw, litErrorInSp.length + consumed)
    | none => none

/-- Scan like `finditer` over the content: scan start positions left to right, resuming
after each match. -/
def tsScanAux : Nat → List Char → List TsRaw
  | _, [] => []
  | 0, _ => []
  | fuel + 1, c :: s =>
    match tsTryAt (c :: s) with
    | some (raw, k) => raw :: tsScanAux fuel (s.drop (k - 1))
    | none => tsScanAux fuel s

def tsScan (content : List Char) : List TsRaw := tsScanAux content.length content

/-- Captures of one `Module not found` failure (regex at line 126). -/
structure ModRaw where
  modName : List Char
  loc : List Char
deriving DecidableEq

def litModuleNF : List Char := "Module not found: Error: Can't resolve '".toList

def litQuoteInQuote : List Char := "' in '".toList

/-- One attempt of
`Module not found: Error: Can't resolve '([^']+)' in '([^']+)'` anchored at
`s` (the `[^']+` runs are greedy and cannot contain the closing quote, so the
match is deterministic). -/
def modTryAt (s : List Char) : Option (ModRaw × Nat) := do
  let r1 ← dropLit litModuleNF s
  let m := r1.takeWhile (fun c => !(c == '\''))
  if m.isEmpty then none else do
  let r2 ← dropLit litQuoteInQuote (r1.dropWhile (fun c => !(c == '\'')))
  let loc := r2.takeWhile (fun c => !(c == '\''))
  if loc.isEmpty then none else do
  let r3 ← dropLit ['\''] (r2.dropWhile (fun c => !(c == '\'')))
  some (⟨m, loc⟩, s.length - r3.length)

def modScanAux : Nat → List Char → List ModRaw
  | _, [] => []
  | 0, _ => []
  | fuel + 1, c :: s =>
    match modTryAt (c :: s) with
    | some (raw, k) => raw :: modScanAux fuel (s.drop (k - 1))
    | none => modScanAux fuel s

def moduleScan (content : List Char) : List ModRaw := modScanAux content.length content

def litNoOutput : List Char := "Error: TypeScript emitted no output for ".toList

/-- Group `(.+?)` (no DOTALL: chars are non-newline) followed by `\.tsx?`,
at lazy offset `k` (regex at line 145). -/
def noOutAtOffset (rest : List Char) (k : Nat) : Option (List Char × Nat) :=
  if k = 0 then none
  else if !(rest.take k).all (fun c => !(c == '\n')) then none
  else
    match rest.drop k with
    | '.' :: 't' :: 's' :: 'x' :: _ => some (rest.take k, k + 4)
    | '.' :: 't' :: 's' :: _ => some (rest.take k, k + 3)
    | _ => none

def noOutLoopAux (rest : List Char) : Nat → Nat → Option (List Char × Nat)
  | 0, _ => none
  | fuel + 1, k =>
    match noOutAtOffset rest k with
    | some res => some res
    | none => noOutLoopAux rest fuel (k + 1)

def noOutTryAt (s : List Char) : Option (List Char × Nat) :=
  match dropLit litNoOutput s with
  | none => none
  | some rest =>
    match noOutLoopAux rest rest.length 1 with
    | some (stem, consumed) => some (stem, litNoOutput.length + consumed)
    | none => none

def noOutScanAux : Nat → List Char → List (List Char)
  | _, [] => []
  | 0, _ => []
  | fuel + 1, c :: s =>
    match noOutTryAt (c :: s) with
    | some (stem, k) => stem :: noOutScanAux fuel (s.drop (k - 1))
    | none => noOutScanAux fuel s

def noOutputScan (content : List Char) : List (List Char) := noOutScanAux content.length content

/-! ## The error-event model and the admission (classify/dedup) logic -/

/-- Kind-specific payload of an `ErrorEvent` candidate (the dict fields built
at lines 113-122, 135-141, 153-158, 185-189). -/
inductive EvData where
  | typescript (file : List Char) (line : Nat) (col : Nat) (code : List Char)
      (message : List Char)
  | missingModule (modName : List Char) (loc : List Char)
  | noEmitCfg (file : List Char)
  | runtimeEv (payload : List Char)
deriving DecidableEq

/-- An admitted error event: owning app, fingerprint (`id`), payload. -/
structure Ev where
  app : List Char
  id : List Char
  data : EvData
deriving DecidableEq

def missPre : List Char := "missing:".toList

def noOutPre : List Char := "no_output:".toList

def runtimePre : List Char := "runtime:".toList

/-- TypeScript candidate: `id = f"{file}:{line}:{code}"` (line 110); the event
stores `int(line)`, `int(col)`, `f"TS{code}"`, `message.strip()`. -/
def tsEvent (app : List Char) (r : TsRaw) : Ev :=
  { app := app
    id := r.file ++ ':' :: r.line ++ ':' :: r.code
    data := .typescript r.file (digitsToNat r.line) (digitsToNat r.col)
      (litTS ++ r.code) (pyStrip r.msg) }

/-- Missing-module candidate: `id = f"missing:{module_name}"` (line 132). -/
def modEvent (app : List Char) (r : ModRaw) : Ev :=
  { app := app, id := missPre ++ r.modName, data := .missingModule r.modName r.loc }

/-- No-output candidate: `id = f"no_output:{app}"` (line 150). -/
def noOutEvent (app stem : List Char) : Ev :=
  { app := app, id := noOutPre ++ app, data := .noEmitCfg stem }

/-- Runtime candidate: `id = f"runtime:{error.get('id','')}"` (line 183); the
Python dict has no `app` field. -/
def runtimeEvent (payloadId : List Char) : Ev :=
  { app := [], id := runtimePre ++ payloadId, data := .runtimeEv payloadId }

/-- The admission loop shared by all families: admit a candidate only if its
fingerprint is not in the seen set, adding it to the seen set immediately
(lines 112-123, 134-142, 152-159, 184-190). -/
def admitAll {α : Type} (mk : α → Ev) : List α → List (List Char) → List Ev × List (List Char)
  | [], seen => ([], seen)
  | x :: xs, seen =>
    let e := mk x
    if seen.contains e.id then admitAll mk xs seen
    else
      let p := admitAll mk xs (e.id :: seen)
      (e :: p.1, p.2)

def gateStr : List Char := "ERROR in".toList

/-- The per-app body of `get_webpack_errors` (lines 96-159): all three
families are extracted only when the content contains `"ERROR in"`; the three
scans run in sequence against the same full content, threading the seen
set. -/
def scanFamilies (app content : List Char) (seen : List (List Char)) :
    List Ev × List (List Char) :=
  if subL gateStr content then
    let p1 := admitAll (tsEvent app) (tsScan content) seen
    let p2 := admitAll (modEvent app) (moduleScan content) p1.2
    let p3 := admitAll (noOutEvent app) (noOutputScan content) p2.2
    (p1.1 ++ p2.1 ++ p3.1, p3.2)
  else ([], seen)

/-- Embeds `get_webpack_errors` (lines 82-164): fold over the five apps, skipping an
app whose log file does not exist. -/
def webpackErrorsAux (root : List Char) (logs : List Char → Option (List Char)) :
    List (List Char) → List (List Char) → List Ev × List (List Char)
  | [], seen => ([], seen)
  | app :: apps, seen =>
    match logs (adapterLogPath root app) with
    | none => webpackErrorsAux root logs apps seen
    | some content =>
      let p1 := scanFamilies app content seen
      let p2 := webpackErrorsAux root logs apps p1.2
      (p1.1 ++ p2.1, p2.2)

def webpackErrors (root : List Char) (logs : List Char → Option (List Char))
    (seen : List (List Char)) : List Ev × List (List Char) :=
  webpackErrorsAux root logs frontendApps seen

/-- Embeds `get_runtime_errors` (lines 166-195): each ErrorLogger record is admitted
through the same seen-set check keyed on `runtime:` plus the record's own id
field (`error.get('id', '')`, missing field modelled as `none`). -/
def runtimeErrors (recs : List (Option (List Char))) (seen : List (List Char)) :
    List Ev × List (List Char) :=
  admitAll (fun rec => runtimeEvent (rec.getD [])) recs seen

/-! ## Admission lemmas (claim C2 machinery) -/

lemma mem_of_containsL {l : List (List Char)} {a : List Char}
    (h : l.contains a = true) : a ∈ l :=
  List.elem_iff.mp h

lemma containsL_of_mem {l : List (List Char)} {a : List Char} (h : a ∈ l) :
    l.contains a = true :=
  List.elem_iff.mpr h

lemma admitAll_cons_pos {α : Type} {mk : α → Ev} {x : α} {xs : List α}
    {seen : List (List Char)} (h : seen.contains (mk x).id = true) :
    admitAll mk (x :: xs) seen = admitAll mk xs seen := by
  simp only [admitAll]; rw [if_pos h]

lemma admitAll_cons_neg {α : Type} {mk : α → Ev} {x : α} {xs : List α}
    {seen : List (List Char)} (h : seen.contains (mk x).id = false) :
    admitAll mk (x :: xs) seen =
      (mk x :: (admitAll mk xs ((mk x).id :: seen)).1,
       (admitAll mk xs ((mk x).id :: seen)).2) := by
  simp only [admitAll]; rw [if_neg (by rw [h]; simp)]

lemma admitAll_fresh {α : Type} (mk : α → Ev) :
    ∀ (xs : List α) (seen : List (List Char)) (e : Ev),
      e ∈ (admitAll mk xs seen).1 → e.id ∉ seen := by
  intro xs
  induction xs with
  | nil => intro seen e he; simp [admitAll] at he
  | cons x xs ih =>
    intro seen e he hid
    cases h : seen.contains (mk x).id with
    | true => rw [admitAll_cons_pos h] at he; exact ih seen e he hid
    | false =>
      rw [admitAll_cons_neg h] at he
      rcases List.mem_cons.mp he with rfl | he
      · rw [containsL_of_mem hid] at h; cases h
      · exact ih ((mk x).id :: seen) e he (List.mem_cons_of_mem _ hid)

lemma admitAll_mono {α : Type} (mk : α → Ev) :
    ∀ (xs : List α) (seen : List (List Char)) (a : List Char),
      a ∈ seen → a ∈ (admitAll mk xs seen).2 := by
  intro xs
  induction xs with
  | nil => intro seen a ha; simpa [admitAll] using ha
  | cons x xs ih =>
    intro seen a ha
    cases h : seen.contains (mk x).id with
    | true => rw [admitAll_cons_pos h]; exact ih seen a ha
    | false =>
      rw [admitAll_cons_neg h]
      exact ih ((mk x).id :: seen) a (List.mem_cons_of_mem _ ha)

lemma admitAll_tracked {α : Type} (mk : α → Ev) :
    ∀ (xs : List α) (seen : List (List Char)) (e : Ev),
      e ∈ (admitAll mk xs seen).1 → e.id ∈ (admitAll mk xs seen).2 := by
  intro xs
  induction xs with
  | nil => intro seen e he; simp [admitAll] at he
  | cons x xs ih =>
    intro seen e he
    cases h : seen.contains (mk x).id with
    | true => rw [admitAll_cons_pos h] at he ⊢; exact ih seen e he
    | false =>
      rw [admitAll_cons_neg h] at he ⊢
      rcases List.mem_cons.mp he with rfl | he
      · exact admitAll_mono mk xs _ _ (List.mem_cons_self _ _)
      · exact ih ((mk x).id :: seen) e he

lemma admitAll_nodup {α : Type} (mk : α → Ev) :
    ∀ (xs : List α) (seen : List (List Char)),
      ((admitAll mk xs seen).1.map Ev.id).Nodup := by
  intro xs
  induction xs with
  | nil => intro seen; simp [admitAll]
  | cons x xs ih =>
    intro seen
    cases h : seen.contains (mk x).id with
    | true => rw [admitAll_cons_pos h]; exact ih seen
    | false =>
      rw [admitAll_cons_neg h]
      simp only [List.map_cons, List.nodup_cons]
      refine ⟨?_, ih ((mk x).id :: seen)⟩
      intro hmem
      rcases List.mem_map.mp hmem with ⟨e, he, hide⟩
      exact admitAll_fresh mk xs _ e he (hide ▸ List.mem_cons_self _ _)

lemma admitAll_cands {α : Type} (mk : α → Ev) :
    ∀ (xs : List α) (seen : List (List Char)) (x : α),
      x ∈ xs → (mk x).id ∈ (admitAll mk xs seen).2 := by
  intro xs
  induction xs with
  | nil => intro seen x hx; cases hx
  | cons y xs ih =>
    intro seen x hx
    cases h : seen.contains (mk y).id with
    | true =>
      rw [admitAll_cons_pos h]
      rcases List.mem_cons.mp hx with rfl | hx
      · exact admitAll_mono mk xs seen _ (mem_of_containsL h)
      · exact ih seen x hx
    | false =>
      rw [admitAll_cons_neg h]
      rcases List.mem_cons.mp hx with rfl | hx
      · exact admitAll_mono mk xs _ _ (List.mem_cons_self _ _)
      · exact ih ((mk y).id :: seen) x hx

lemma admitAll_complete {α : Type} (mk : α → Ev) :
    ∀ (xs : List α) (seen : List (List Char)) (x : α),
      x ∈ xs → (mk x).id ∉ seen →
      ∃ e ∈ (admitAll mk xs seen).1, e.id = (mk x).id := by
  intro xs
  induction xs with
  | nil => intro seen x hx; cases hx
  | cons y xs ih =>
    intro seen x hx hid
    cases h : seen.contains (mk y).id with
    | true =>
      rw [admitAll_cons_pos h]
      rcases List.mem_cons.mp hx with rfl | hx
      · exact absurd (mem_of_containsL h) hid
      · exact ih seen x hx hid
    | false =>
      rw [admitAll_cons_neg h]
      rcases List.mem_cons.mp hx with rfl | hx
      · exact ⟨mk x, List.mem_cons_self _ _, rfl⟩
      · by_cases hsame : (mk x).id = (mk y).id
        · exact ⟨mk y, List.mem_cons_self _ _, hsame.symm⟩
        · have : (mk x).id ∉ (mk y).id :: seen := by
            intro hmem
            rcases List.mem_cons.mp hmem with heq | hmem
            · exact hsame heq
            · exact hid hmem
          rcases ih ((mk y).id :: seen) x hx this with ⟨e, he, heq⟩
          exact ⟨e, List.mem_cons_of_mem _ he, heq⟩

lemma admitAll_allSeen {α : Type} (mk : α → Ev) :
    ∀ (xs : List α) (seen : List (List Char)),
      (∀ x ∈ xs, (mk x).id ∈ seen) → admitAll mk xs seen = ([], seen) := by
  intro xs
  induction xs with
  | nil => intro seen _; rfl
  | cons x xs ih =>
    intro seen hall
    rw [admitAll_cons_pos (containsL_of_mem (hall x (List.mem_cons_self _ _)))]
    exact ih seen (fun y hy => hall y (List.mem_cons_of_mem _ hy))

/-! ### Lifting to `scanFamilies` -/

lemma scanFamilies_pos {app content seen} (hgate : subL gateStr content = true) :
    scanFamilies app content seen =
      ((admitAll (tsEvent app) (tsScan content) seen).1 ++
        (admitAll (modEvent app) (moduleScan content)
          (admitAll (tsEvent app) (tsScan content) seen).2).1 ++
        (admitAll (noOutEvent app) (noOutputScan content)
          (admitAll (modEvent app) (moduleScan content)
            (admitAll (tsEvent app) (tsScan content) seen).2).2).1,
       (admitAll (noOutEvent app) (noOutputScan content)
         (admitAll (modEvent app) (moduleScan content)
           (admitAll (tsEvent app) (tsScan content) seen).2).2).2) := by
  simp only [scanFamilies]
  rw [if_pos hgate]

lemma scanFamilies_neg {app content seen} (hgate : subL gateStr content = false) :
    scanFamilies app content seen = ([], seen) := by
  simp only [scanFamilies]
  rw [if_neg (by simp [hgate])]

lemma scanFamilies_fresh {app content seen e}
    (he : e ∈ (scanFamilies app content seen).1) : e.id ∉ seen := by
  by_cases hgate : subL gateStr content = true
  · rw [scanFamilies_pos hgate] at he
    intro hid
    rcases List.mem_append.mp he with h12 | h3
    · rcases List.mem_append.mp h12 with h1 | h2
      · exact admitAll_fresh _ _ _ _ h1 hid
      · exact admitAll_fresh _ _ _ _ h2 (admitAll_mono _ _ _ _ hid)
    · exact admitAll_fresh _ _ _ _ h3
        (admitAll_mono _ _ _ _ (admitAll_mono _ _ _ _ hid))
  · rw [scanFamilies_neg (by simpa using hgate)] at he
    cases he

lemma scanFamilies_mono {app content seen a} (ha : a ∈ seen) :
    a ∈ (scanFamilies app content seen).2 := by
  by_cases hgate : subL gateStr content = true
  · rw [scanFamilies_pos hgate]
    exact admitAll_mono _ _ _ _ (admitAll_mono _ _ _ _ (admitAll_mono _ _ _ _ ha))
  · rw [scanFamilies_neg (by simpa using hgate)]
    exact ha

lemma scanFamilies_tracked {app content seen e}
    (he : e ∈ (scanFamilies app content seen).1) :
    e.id ∈ (scanFamilies app content seen).2 := by
  by_cases hgate : subL gateStr content = true
  · rw [scanFamilies_pos hgate] at he ⊢
    rcases List.mem_append.mp he with h12 | h3
    · rcases List.mem_append.mp h12 with h1 | h2
      · exact admitAll_mono _ _ _ _ (admitAll_mono _ _ _ _ (admitAll_tracked _ _ _ _ h1))
      · exact admitAll_mono _ _ _ _ (admitAll_tracked _ _ _ _ h2)
    · exact admitAll_tracked _ _ _ _ h3
  · rw [scanFamilies_neg (by simpa using hgate)] at he
    cases he

lemma scanFamilies_nodup (app content : List Char) (seen : List (List Char)) :
    ((scanFamilies app content seen).1.map Ev.id).Nodup := by
  by_cases hgate : subL gateStr content = true
  · rw [scanFamilies_pos hgate]
    simp only [List.map_append]
    have hA := admitAll_nodup (tsEvent app) (tsScan content) seen
    have hB := admitAll_nodup (modEvent app) (moduleScan content)
      (admitAll (tsEvent app) (tsScan content) seen).2
    have hC := admitAll_nodup (noOutEvent app) (noOutputScan content)
      (admitAll (modEvent app) (moduleScan content)
        (admitAll (tsEvent app) (tsScan content) seen).2).2
    refine List.Nodup.append (List.Nodup.append hA hB ?_) hC ?_
    · intro a h1 h2
      rcases List.mem_map.mp h1 with ⟨e, he, rfl⟩
      rcases List.mem_map.mp h2 with ⟨e2, he2, heq⟩
      have hmem := admitAll_tracked _ _ _ _ he
      rw [← heq] at hmem
      exact admitAll_fresh _ _ _ _ he2 hmem
    · intro a h12 h3
      rcases List.mem_map.mp h3 with ⟨e2, he2, heq⟩
      rcases List.mem_append.mp h12 with h1 | h2
      · rcases List.mem_map.mp h1 with ⟨e, he, rfl⟩
        have hmem := admitAll_mono (modEvent app) (moduleScan content) _ _
          (admitAll_tracked _ _ _ _ he)
        rw [← heq] at hmem
        exact admitAll_fresh _ _ _ _ he2 hmem
      · rcases List.mem_map.mp h2 with ⟨e, he, rfl⟩
        have hmem := admitAll_tracked _ _ _ _ he
        rw [← heq] at hmem
        exact admitAll_fresh _ _ _ _ he2 hmem
  · rw [scanFamilies_neg (by simpa using hgate)]
    simp

lemma scanFamilies_cands {app content : List Char} (seen : List (List Char))
    (hgate : subL gateStr content = true) :
    (∀ r ∈ tsScan content, (tsEvent app r).id ∈ (scanFamilies app content seen).2) ∧
    (∀ r ∈ moduleScan content, (modEvent app r).id ∈ (scanFamilies app content seen).2) ∧
    (∀ f ∈ noOutputScan content, (noOutEvent app f).id ∈ (scanFamilies app content seen).2) := by
  rw [scanFamilies_pos hgate]
  refine ⟨fun r hr => ?_, fun r hr => ?_, fun f hf => ?_⟩
  · exact admitAll_mono _ _ _ _ (admitAll_mono _ _ _ _ (admitAll_cands _ _ _ _ hr))
  · exact admitAll_mono _ _ _ _ (admitAll_cands _ _ _ _ hr)
  · exact admitAll_cands _ _ _ _ hf

lemma scanFamilies_allSeen {app content : List Char} {s' : List (List Char)}
    (hts : ∀ r ∈ tsScan content, (tsEvent app r).id ∈ s')
    (hmod : ∀ r ∈ moduleScan content, (modEvent app r).id ∈ s')
    (hno : ∀ f ∈ noOutputScan content, (noOutEvent app f).id ∈ s') :
    scanFamilies app content s' = ([], s') := by
  by_cases hgate : subL gateStr content = true
  · have h1 : admitAll (tsEvent app) (tsScan content) s' = ([], s') :=
      admitAll_allSeen _ _ _ hts
    have h2 : admitAll (modEvent app) (moduleScan content) s' = ([], s') :=
      admitAll_allSeen _ _ _ hmod
    have h3 : admitAll (noOutEvent app) (noOutputScan content) s' = ([], s') :=
      admitAll_allSeen _ _ _ hno
    rw [scanFamilies_pos hgate, h1]
    dsimp only
    rw [h2]
    dsimp only
    rw [h3]
    rfl
  · exact scanFamilies_neg (by simpa using hgate)

lemma scanFamilies_rescan {app content : List Char} {seen s' : List (List Char)}
    (hsub : ∀ a ∈ (scanFamilies app content seen).2, a ∈ s') :
    scanFamilies app content s' = ([], s') := by
  by_cases hgate : subL gateStr content = true
  · rcases scanFamilies_cands seen hgate with ⟨hts, hmod, hno⟩
    exact scanFamilies_allSeen (fun r hr => hsub _ (hts r hr))
      (fun r hr => hsub _ (hmod r hr)) (fun f hf => hsub _ (hno f hf))
  · exact scanFamilies_neg (by simpa using hgate)

/-! ### Lifting to `get_webpack_errors` and `get_runtime_errors` -/

lemma wpAux_cons_none {root : List Char} {logs : List Char → Option (List Char)}
    {app : List Char} {apps : List (List Char)} {seen : List (List Char)}
    (h : logs (adapterLogPath root app) = none) :
    webpackErrorsAux root logs (app :: apps) seen = webpackErrorsAux root logs apps seen := by
  simp only [webpackErrorsAux]
  rw [h]

lemma wpAux_cons_some {root : List Char} {logs : List Char → Option (List Char)}
    {app content : List Char} {apps : List (List Char)} {seen : List (List Char)}
    (h : logs (adapterLogPath root app) = some content) :
    webpackErrorsAux root logs (app :: apps) seen =
      ((scanFamilies app content seen).1 ++
        (webpackErrorsAux root logs apps (scanFamilies app content seen).2).1,
       (webpackErrorsAux root logs apps (scanFamilies app content seen).2).2) := by
  simp only [webpackErrorsAux]
  rw [h]

lemma wpAux_fresh {root : List Char} {logs : List Char → Option (List Char)} :
    ∀ (apps : List (List Char)) (seen : List (List Char)) (e : Ev),
      e ∈ (webpackErrorsAux root logs apps seen).1 → e.id ∉ seen := by
  intro apps
  induction apps with
  | nil => intro seen e he; simp [webpackErrorsAux] at he
  | cons app apps ih =>
    intro seen e he hid
    cases h : logs (adapterLogPath root app) with
    | none => rw [wpAux_cons_none h] at he; exact ih seen e he hid
    | some content =>
      rw [wpAux_cons_some h] at he
      rcases List.mem_append.mp he with h1 | h2
      · exact scanFamilies_fresh h1 hid
      · exact ih _ e h2 (scanFamilies_mono hid)

lemma wpAux_mono {root : List Char} {logs : List Char → Option (List Char)} :
    ∀ (apps : List (List Char)) (seen : List (List Char)) (a : List Char),
      a ∈ seen → a ∈ (webpackErrorsAux root logs apps seen).2 := by
  intro apps
  induction apps with
  | nil => intro seen a ha; simpa [webpackErrorsAux] using ha
  | cons app apps ih =>
    intro seen a ha
    cases h : logs (adapterLogPath root app) with
    | none => rw [wpAux_cons_none h]; exact ih seen a ha
    | some content =>
      rw [wpAux_cons_some h]
      exact ih _ a (scanFamilies_mono ha)

lemma wpAux_tracked {root : List Char} {logs : List Char → Option (List Char)} :
    ∀ (apps : List (List Char)) (seen : List (List Char)) (e : Ev),
      e ∈ (webpackErrorsAux root logs apps seen).1 →
      e.id ∈ (webpackErrorsAux root logs apps seen).2 := by
  intro apps
  induction apps with
  | nil => intro seen e he; simp [webpackErrorsAux] at he
  | cons app apps ih =>
    intro seen e he
    cases h : logs (adapterLogPath root app) with
    | none => rw [wpAux_cons_none h] at he ⊢; exact ih seen e he
    | some content =>
      rw [wpAux_cons_some h] at he ⊢
      rcases List.mem_append.mp he with h1 | h2
      · exact wpAux_mono apps _ _ (scanFamilies_tracked h1)
      · exact ih _ e h2

lemma wpAux_nodup {root : List Char} {logs : List Char → Option (List Char)} :
    ∀ (apps : List (List Char)) (seen : List (List Char)),
      ((webpackErrorsAux root logs apps seen).1.map Ev.id).Nodup := by
  intro apps
  induction apps with
  | nil => intro seen; simp [webpackErrorsAux]
  | cons app apps ih =>
    intro seen
    cases h : logs (adapterLogPath root app) with
    | none => rw [wpAux_cons_none h]; exact ih seen
    | some content =>
      rw [wpAux_cons_some h]
      simp only [List.map_append]
      refine List.Nodup.append (scanFamilies_nodup app content seen) (ih _) ?_
      intro a h1 h2
      rcases List.mem_map.mp h1 with ⟨e, he, rfl⟩
      rcases List.mem_map.mp h2 with ⟨e2, he2, heq⟩
      have hmem := scanFamilies_tracked he
      rw [← heq] at hmem
      exact wpAux_fresh apps _ e2 he2 hmem

lemma wpAux_rescan {root : List Char} {logs : List Char → Option (List Char)} :
    ∀ (apps : List (List Char)) (seen s' : List (List Char)),
      (∀ a ∈ (webpackErrorsAux root logs apps seen).2, a ∈ s') →
      webpackErrorsAux root logs apps s' = ([], s') := by
  intro apps
  induction apps with
  | nil => intro seen s' _; rfl
  | cons app apps ih =>
    intro seen s' hsub
    cases h : logs (adapterLogPath root app) with
    | none =>
      rw [wpAux_cons_none h] at hsub
      rw [wpAux_cons_none h]
      exact ih seen s' hsub
    | some content =>
      rw [wpAux_cons_some h] at hsub
      rw [wpAux_cons_some h]
      have hsub1 : ∀ a ∈ (scanFamilies app content seen).2, a ∈ s' :=
        fun a ha => hsub a (wpAux_mono apps _ a ha)
      have hsf : scanFamilies app content s' = ([], s') := scanFamilies_rescan hsub1
      rw [hsf]
      dsimp only
      rw [ih (scanFamilies app content seen).2 s' hsub]
      rfl

/-! ### A whole monitoring run's scans (both adapters, threading the seen set) -/

/-- One adapter invocation: a webpack log scan over the current file system, or
a runtime (ErrorLogger) scan over the records the browser returned. -/
inductive ScanIn where
  | wp (logs : List Char → Option (List Char))
  | rt (recs : List (Option (List Char)))

def scanStep (root : List Char) : ScanIn → List (List Char) → List Ev × List (List Char)
  | .wp logs, seen => webpackErrors root logs seen
  | .rt recs, seen => runtimeErrors recs seen

def scanRun (root : List Char) : List ScanIn → List (List Char) → List Ev × List (List Char)
  | [], seen => ([], seen)
  | sc :: scs, seen =>
    ((scanStep root sc seen).1 ++ (scanRun root scs (scanStep root sc seen).2).1,
     (scanRun root scs (scanStep root sc seen).2).2)

lemma scanStep_fresh {root : List Char} {sc : ScanIn} {seen : List (List Char)} {e : Ev}
    (he : e ∈ (scanStep root sc seen).1) : e.id ∉ seen := by
  cases sc with
  | wp logs => exact wpAux_fresh frontendApps seen e he
  | rt recs => exact admitAll_fresh _ recs seen e he

lemma scanStep_mono {root : List Char} {sc : ScanIn} {seen : List (List Char)} {a : List Char}
    (ha : a ∈ seen) : a ∈ (scanStep root sc seen).2 := by
  cases sc with
  | wp logs => exact wpAux_mono frontendApps seen a ha
  | rt recs => exact admitAll_mono _ recs seen a ha

lemma scanStep_tracked {root : List Char} {sc : ScanIn} {seen : List (List Char)} {e : Ev}
    (he : e ∈ (scanStep root sc seen).1) : e.id ∈ (scanStep root sc seen).2 := by
  cases sc with
  | wp logs => exact wpAux_tracked frontendApps seen e he
  | rt recs => exact admitAll_tracked _ recs seen e he

lemma scanStep_nodup (root : List Char) (sc : ScanIn) (seen : List (List Char)) :
    ((scanStep root sc seen).1.map Ev.id).Nodup := by
  cases sc with
  | wp logs => exact wpAux_nodup frontendApps seen
  | rt recs => exact admitAll_nodup _ recs seen

lemma scanRun_fresh {root : List Char} :
    ∀ (scs : List ScanIn) (seen : List (List Char)) (e : Ev),
      e ∈ (scanRun root scs seen).1 → e.id ∉ seen := by
  intro scs
  induction scs with
  | nil => intro seen e he; simp [scanRun] at he
  | cons sc scs ih =>
    intro seen e he hid
    simp only [scanRun] at he
    rcases List.mem_append.mp he with h1 | h2
    · exact scanStep_fresh h1 hid
    · exact ih _ e h2 (scanStep_mono hid)

lemma scanRun_nodup {root : List Char} :
    ∀ (scs : List ScanIn) (seen : List (List Char)),
      ((scanRun root scs seen).1.map Ev.id).Nodup := by
  intro scs
  induction scs with
  | nil => intro seen; simp [scanRun]
  | cons sc scs ih =>
    intro seen
    simp only [scanRun, List.map_append]
    refine List.Nodup.append (scanStep_nodup root sc seen) (ih _) ?_
    intro a h1 h2
    rcases List.mem_map.mp h1 with ⟨e, he, rfl⟩
    rcases List.mem_map.mp h2 with ⟨e2, he2, heq⟩
    have hmem := scanStep_tracked he
    rw [← heq] at hmem
    exact scanRun_fresh scs _ e2 he2 hmem

/-! ## Claims C2, C8, C9 -/

set_option maxRecDepth 8000

/-- Claim C2 — (i) over any sequence of adapter scans threading the seen set, the
emitted events have pairwise-distinct fingerprints and none that was already
seen; (ii) re-scanning the same logs against the updated seen set emits
nothing; (iii) a candidate whose fingerprint is not yet seen is admitted
(exactly one event, by (i)). -/
theorem c2_dedup_invariant :
    (∀ (root : List Char) (scans : List ScanIn) (seen : List (List Char)),
      ((scanRun root scans seen).1.map Ev.id).Nodup ∧
      (∀ e ∈ (scanRun root scans seen).1, e.id ∉ seen)) ∧
    (∀ (root : List Char) (logs : List Char → Option (List Char)) (seen : List (List Char)),
      webpackErrors root logs (webpackErrors root logs seen).2 =
        ([], (webpackErrors root logs seen).2)) ∧
    (∀ (α : Type) (mk : α → Ev) (xs : List α) (seen : List (List Char)) (x : α),
      x ∈ xs → (mk x).id ∉ seen →
      ∃ e ∈ (admitAll mk xs seen).1, e.id = (mk x).id) := by
  refine ⟨fun root scans seen =>
    ⟨scanRun_nodup scans seen, fun e he => scanRun_fresh scans seen e he⟩, ?_, ?_⟩
  · intro root logs seen
    exact wpAux_rescan frontendApps seen _ (fun a ha => ha)
  · intro α mk xs seen x hx hid
    exact admitAll_complete mk xs seen x hx hid

def rootC : List Char := "/r".toList

def c2Content : List Char :=
  "ERROR in q\nModule not found: Error: Can't resolve 'a' in 'd'\n".toList

def c2Logs : List Char → Option (List Char) := fun p =>
  if p == adapterLogPath rootC containerName then some c2Content else none

/-- Witness for `C2` at a concrete one-module log. -/
theorem c2_witness :
    ((modEvent containerName ⟨"a".toList, "d".toList⟩).id ∉ ([] : List (List Char))) ∧
    (∃ e ∈ (admitAll (modEvent containerName) (moduleScan c2Content)
        ([] : List (List Char))).1,
      e.id = (modEvent containerName ⟨"a".toList, "d".toList⟩).id) :=
  ⟨(c2_dedup_invariant.1 rootC [ScanIn.wp c2Logs] []).2
      (modEvent containerName ⟨"a".toList, "d".toList⟩) (by decide),
   c2_dedup_invariant.2.2 ModRaw (modEvent containerName) (moduleScan c2Content) []
      ⟨"a".toList, "d".toList⟩ (by decide) (by decide)⟩

/-- Claim C8 (amended) — the three families are only extracted when the content
contains `"ERROR in"`; under that gate the families are scanned independently
against the same content: in particular a content whose only matches are
module-not-found matches yields exactly the module family's admitted
events. -/
theorem c8_families_gated :
    (∀ (app content : List Char) (seen : List (List Char)),
      subL gateStr content = false → scanFamilies app content seen = ([], seen)) ∧
    (∀ (app content : List Char) (seen : List (List Char)),
      subL gateStr content = true → tsScan content = [] → noOutputScan content = [] →
      scanFamilies app content seen =
        admitAll (modEvent app) (moduleScan content) seen) := by
  constructor
  · intro app content seen h
    exact scanFamilies_neg h
  · intro app content seen hgate hts hno
    rw [scanFamilies_pos hgate, hts, hno]
    simp [admitAll]

def c8Content : List Char :=
  "Module not found: Error: Can't resolve 'lodash' in '/app/src'".toList

/-- Counterexample for `C8` as stated: a content containing only a
module-not-found pattern (but not the literal `"ERROR in"`) yields no events
at all — the module family is not extracted. -/
theorem c8_counterexample :
    moduleScan c8Content ≠ [] ∧
    scanFamilies containerName c8Content [] = ([], []) := by
  constructor
  · decide
  · exact scanFamilies_neg (by decide)

/-- Witness for `C8` at concrete gated and ungated contents. -/
theorem c8_witness :
    scanFamilies containerName c8Content [] = ([], []) ∧
    scanFamilies containerName c2Content [] =
      admitAll (modEvent containerName) (moduleScan c2Content) [] :=
  ⟨c8_families_gated.1 containerName c8Content [] (by decide),
   c8_families_gated.2 containerName c2Content [] (by decide) (by decide) (by decide)⟩

/-- Claim C9 (amended) — module fingerprints depend only on the module name (not
the reporting app), no-output fingerprints only on the app (not the file);
distinct modules, and distinct apps, do give distinct fingerprints. -/
theorem c9_fingerprints_amended :
    (∀ (app1 app2 : List Char) (r : ModRaw), (modEvent app1 r).id = (modEvent app2 r).id) ∧
    (∀ (app f1 f2 : List Char), (noOutEvent app f1).id = (noOutEvent app f2).id) ∧
    (∀ (app1 : List Char) (r1 : ModRaw) (app2 : List Char) (r2 : ModRaw),
      r1.modName ≠ r2.modName → (modEvent app1 r1).id ≠ (modEvent app2 r2).id) ∧
    (∀ (app1 f1 app2 f2 : List Char),
      app1 ≠ app2 → (noOutEvent app1 f1).id ≠ (noOutEvent app2 f2).id) := by
  refine ⟨fun _ _ _ => rfl, fun _ _ _ => rfl, ?_, ?_⟩
  · intro a1 r1 a2 r2 hne heq
    exact hne (List.append_cancel_left heq)
  · intro a1 f1 a2 f2 hne heq
    exact hne (List.append_cancel_left heq)

def umaName : List Char := "user-management-app".toList

def c9Logs : List Char → Option (List Char) := fun p =>
  if p == adapterLogPath rootC containerName then some c2Content
  else if p == adapterLogPath rootC umaName then some c2Content else none

def c9NoOutContent : List Char :=
  "ERROR in q\nError: TypeScript emitted no output for a.ts\nError: TypeScript emitted no output for b.ts\n".toList

/-- Counterexample for `C9` as stated: the same module missing in two
different services yields one shared fingerprint (the second service's event
is suppressed), and two different files triggering the no-output signature in
one service likewise collapse to a single fingerprint. -/
theorem c9_counterexample :
    (webpackErrors rootC c9Logs []).1.length = 1 ∧
    (scanFamilies containerName c2Content []).1.length = 1 ∧
    (scanFamilies umaName c2Content []).1.length = 1 ∧
    (noOutputScan c9NoOutContent).length = 2 ∧
    (scanFamilies containerName c9NoOutContent []).1.length = 1 := by
  decide

/-- Witness for `C9` at concrete distinct modules and apps. -/
theorem c9_witness :
    (modEvent containerName ⟨"a".toList, "d".toList⟩).id ≠
      (modEvent containerName ⟨"b".toList, "d".toList⟩).id ∧
    (noOutEvent containerName ("f1".toList)).id ≠ (noOutEvent umaName ("f2".toList)).id :=
  ⟨c9_fingerprints_amended.2.2.1 _ _ _ _ (by decide),
   c9_fingerprints_amended.2.2.2 _ _ _ _ (by decide)⟩

/-! ## The file system / process world and the fix strategies -/

/-- External state the fixer touches: files (read/written), the outcome of
`npm install` runs (`subprocess.run` at lines 207-213, success = exit 0), and
the records the browser's ErrorLogger returns (`none` = browser/navigation
failure, swallowed at lines 571-578). -/
structure World where
  files : List Char → Option (List Char)
  installOk : List Char → List Char → Bool
  runtimeRecs : Option (List (Option (List Char)))

def setFile (w : World) (p c : List Char) : World :=
  { w with files := fun q => if q == p then some c else w.files q }

/-- Python `f.readlines()` (keepends). -/
def pyLinesAux : Nat → List Char → List (List Char)
  | _, [] => []
  | 0, s => [s]
  | fuel + 1, s =>
    match s.dropWhile (fun c => !(c == '\n')) with
    | '\n' :: r => (s.takeWhile (fun c => !(c == '\n')) ++ ['\n']) :: pyLinesAux fuel r
    | _ => [s.takeWhile (fun c => !(c == '\n'))]

def pyReadLines (s : List Char) : List (List Char) := pyLinesAux s.length s

def joinLines (ls : List (List Char)) : List Char := ls.foldr (fun a b => a ++ b) []

/-- Python `lines[line - 1]` after the `line > len(lines)` guard: `line = 0`
wraps to the last element (negative index), otherwise 1-based access. -/
def pyLineGet (lines : List (List Char)) (line : Nat) : Option (List Char) :=
  if line = 0 then lines.getLast? else lines.get? (line - 1)

def pyLineSet (lines : List (List Char)) (line : Nat) (v : List Char) : List (List Char) :=
  if line = 0 then lines.set (lines.length - 1) v else lines.set (line - 1) v

/-- Outcome of one strategy call: `applied`, the world after any write, and
the fingerprints the strategy added to `self.fixed_errors`. -/
structure FixRes where
  applied : Bool
  world : World
  recorded : List (List Char)

/-- Embeds `fix_missing_module` (lines 197-225): run `npm install <module>` in the
app's directory; on exit 0 record the event's own id and report success. -/
def fixMissingModule (w : World) (app modName fp : List Char) : FixRes :=
  if w.installOk app modName then ⟨true, w, [fp]⟩ else ⟨false, w, []⟩

def tsconfigPath (root app : List Char) : List Char :=
  root ++ "/frontend/".toList ++ app ++ "/tsconfig.json".toList

/-- Embeds `fix_tsconfig_no_emit` (lines 227-262) at file level: missing file or
absent flag decline; otherwise write the replaced content and record the
event's own id. -/
def fixTsconfigFile (root : List Char) (w : World) (app fp : List Char) : FixRes :=
  match w.files (tsconfigPath root app) with
  | none => ⟨false, w, []⟩
  | some content =>
    match fixTsconfigContent content with
    | (c2, true) => ⟨true, setFile w (tsconfigPath root app) c2, [fp]⟩
    | (_, false) => ⟨false, w, []⟩

def findExisting (w : World) : List (List Char) → Option (List Char)
  | [] => none
  | p :: ps => if (w.files p).isSome then some p else findExisting w ps

/-- The file-location logic of `fix_typescript_error` (lines 271-295):
relative paths are tried under `frontend/<app>/src`, `frontend/<app>` and the
project root, with Python `str.replace` stripping `./src/` resp. `./`. -/
def resolveTsFile (root : List Char) (w : World) (app file : List Char) : Option (List Char) :=
  if preL ['/'] file then
    if (w.files file).isSome then some file else none
  else
    findExisting w
      [root ++ "/frontend/".toList ++ app ++ "/src/".toList ++
        replaceAllL ("./src/".toList) [] file,
       root ++ "/frontend/".toList ++ app ++ '/' :: replaceAllL ("./".toList) [] file,
       root ++ '/' :: replaceAllL ("./".toList) [] file]

/-- Generic `re.sub` (all occurrences) driven by a deterministic anchored
matcher returning the replacement text and chars consumed (`≥ 1`). -/
def reSubAllAux (m : List Char → Option (List Char × Nat)) : Nat → List Char → List Char
  | _, [] => []
  | 0, s => s
  | fuel + 1, c :: s =>
    match m (c :: s) with
    | some (rep, k) => rep ++ reSubAllAux m fuel (s.drop (k - 1))
    | none => c :: reSubAllAux m fuel s

def reSubAll (m : List Char → Option (List Char × Nat)) (s : List Char) : List Char :=
  reSubAllAux m s.length s

/-- Generic `re.sub` with `count=1`. -/
def reSub1Aux (m : List Char → Option (List Char × Nat)) : Nat → List Char → List Char
  | _, [] => []
  | 0, s => s
  | fuel + 1, c :: s =>
    match m (c :: s) with
    | some (rep, k) => rep ++ s.drop (k - 1)
    | none => c :: reSub1Aux m fuel s

def reSub1 (m : List Char → Option (List Char × Nat)) (s : List Char) : List Char :=
  reSub1Aux m s.length s

/-- Greedy `(\.\./)*`. -/
def dropDotsAux : Nat → List Char → List Char
  | 0, s => s
  | fuel + 1, s => if preL ("../".toList) s then dropDotsAux fuel (s.drop 3) else s

def dropDots (s : List Char) : List Char := dropDotsAux s.length s

/-- Matcher for `from ["\'](\.\./)*shared-ui-lib` with replacement
`from '<prefix>shared-ui-lib` (lines 342-346). -/
def fromSharedMatch (pfx : List Char) (s : List Char) : Option (List Char × Nat) :=
  if preL ("from ".toList) s then
    match s.drop 5 with
    | c :: rest =>
      if c == '"' || c == '\'' then
        let rest2 := dropDots rest
        if preL ("shared-ui-lib".toList) rest2 then
          some (("from '".toList) ++ pfx ++ ("shared-ui-lib".toList),
            s.length - (rest2.length - 13))
        else none
      else none
    | [] => none
  else none

def dotdotRepeat : Nat → List Char
  | 0 => []
  | n + 1 => "../".toList ++ dotdotRepeat n

/-- Embeds `fix_module_not_found` (lines 319-362): rewrite the `shared-ui-lib` import
prefix on the reported line; records `f"{file_path}:{line}:TS2307"`. -/
def fixModuleNotFound (w : World) (path : List Char) (line : Nat) : FixRes :=
  match w.files path with
  | none => ⟨false, w, []⟩
  | some content =>
    let lines := pyReadLines content
    if lines.length < line then ⟨false, w, []⟩
    else
      match pyLineGet lines line with
      | none => ⟨false, w, []⟩
      | some target =>
        if subL ("shared-ui-lib".toList) target then
          if ((path.splitOn '/').filter (fun seg => seg == ("src".toList))).length = 0 then
            ⟨false, w, []⟩
          else
            match reSubAll (fromSharedMatch (dotdotRepeat
                (((path.splitOn '/').filter (fun seg => seg == ("src".toList))).length + 1)))
                target with
            | updated =>
              if updated == target then ⟨false, w, []⟩
              else ⟨true, setFile w path (joinLines (pyLineSet lines line updated)),
                [path ++ ':' :: (Nat.repr line).toList ++ ':' :: ("TS2307".toList)]⟩
        else ⟨false, w, []⟩

/-- Embeds `re.search(r"Parameter '(\w+)' implicitly", message)` (line 368). -/
def extractParamAux : Nat → List Char → Option (List Char)
  | 0, _ => none
  | _, [] => none
  | fuel + 1, c :: s =>
    match dropLit ("Parameter '".toList) (c :: s) with
    | none => extractParamAux fuel s
    | some r1 =>
      if (r1.takeWhile isWordChar).isEmpty then extractParamAux fuel s
      else
        match dropLit ("' implicitly".toList) (r1.dropWhile isWordChar) with
        | some _ => some (r1.takeWhile isWordChar)
        | none => extractParamAux fuel s

def extractParam (msg : List Char) : Option (List Char) := extractParamAux msg.length msg

/-- The negative lookahead `(?!\s*:)`. -/
def colonAhead (s : List Char) : Bool := preL [':'] (s.dropWhile isSpaceChar)

/-- Boundary `\b` on the right edge of the parameter occurrence. -/
def boundaryAfter : List Char → Bool
  | [] => true
  | c :: _ => !isWordChar c

/-- Embeds `re.sub(rf'\b{param}\b(?!\s*:)', f'{param}: any', target_line)` — note:
no `count` argument, so every occurrence is replaced (line 384). -/
def subParamAux (param : List Char) : Nat → Bool → List Char → List Char
  | _, _, [] => []
  | 0, _, s => s
  | fuel + 1, prevW, c :: s =>
    if !prevW && preL param (c :: s) && boundaryAfter (List.drop param.length (c :: s))
        && !colonAhead (List.drop param.length (c :: s)) then
      (param ++ (": any".toList)) ++ subParamAux param fuel true (s.drop (param.length - 1))
    else
      c :: subParamAux param fuel (isWordChar c) s

def subParam (param target : List Char) : List Char :=
  subParamAux param target.length false target

/-- Embeds `fix_implicit_any` (lines 364-404): records `f"{file_path}:{line}:TS7006"`. -/
def fixImplicitAny (w : World) (path : List Char) (line : Nat) (msg : List Char) : FixRes :=
  match extractParam msg with
  | none => ⟨false, w, []⟩
  | some param =>
    match w.files path with
    | none => ⟨false, w, []⟩
    | some content =>
      let lines := pyReadLines content
      if lines.length < line then ⟨false, w, []⟩
      else
        match pyLineGet lines line with
        | none => ⟨false, w, []⟩
        | some target =>
          if subParam param target == target then ⟨false, w, []⟩
          else ⟨true, setFile w path (joinLines (pyLineSet lines line (subParam param target))),
            [path ++ ':' :: (Nat.repr line).toList ++ ':' :: ("TS7006".toList)]⟩

/-- Embeds `re.search(r"Property '(\w+)' does not exist on type", message)` (line 421). -/
def extractPropAux : Nat → List Char → Option (List Char)
  | 0, _ => none
  | _, [] => none
  | fuel + 1, c :: s =>
    match dropLit ("Property '".toList) (c :: s) with
    | none => extractPropAux fuel s
    | some r1 =>
      if (r1.takeWhile isWordChar).isEmpty then extractPropAux fuel s
      else
        match dropLit ("' does not exist on type".toList) (r1.dropWhile isWordChar) with
        | some _ => some (r1.takeWhile isWordChar)
        | none => extractPropAux fuel s

def extractProp (msg : List Char) : Option (List Char) := extractPropAux msg.length msg

/-- Matcher for `(\w+)\.(\w+)` with replacement `(\1 as any).\2` (line 426). -/
def dotAccessMatch (s : List Char) : Option (List Char × Nat) :=
  if (s.takeWhile isWordChar).isEmpty then none
  else
    match s.drop (s.takeWhile isWordChar).length with
    | '.' :: r2 =>
      if (r2.takeWhile isWordChar).isEmpty then none
      else some ('(' :: s.takeWhile isWordChar ++ (" as any).".toList) ++ r2.takeWhile isWordChar,
        (s.takeWhile isWordChar).length + 1 + (r2.takeWhile isWordChar).length)
    | _ => none

/-- Embeds `fix_property_not_exist` (lines 406-447): records `f"{file_path}:{line}:TS2339"`. -/
def fixPropertyNotExist (w : World) (path : List Char) (line : Nat) (msg : List Char) : FixRes :=
  match w.files path with
  | none => ⟨false, w, []⟩
  | some content =>
    let lines := pyReadLines content
    if lines.length < line then ⟨false, w, []⟩
    else
      match pyLineGet lines line with
      | none => ⟨false, w, []⟩
      | some target =>
        if subL ['.'] target && !(subL ("as any".toList) target) then
          match extractProp msg with
          | none => ⟨false, w, []⟩
          | some _ =>
            if reSub1 dotAccessMatch target == target then ⟨false, w, []⟩
            else ⟨true,
              setFile w path (joinLines (pyLineSet lines line (reSub1 dotAccessMatch target))),
              [path ++ ':' :: (Nat.repr line).toList ++ ':' :: ("TS2339".toList)]⟩
        else ⟨false, w, []⟩

/-- Matcher for `\.apply\(([^,)]+),\s*([^)]+)\)` with replacement
`.apply(\1, \2 as any)` (line 463); the `\s*`/`[^)]+` split backtracks so
that group 2 is non-empty. -/
def applyMatch (s : List Char) : Option (List Char × Nat) :=
  if preL (".apply(".toList) s then
    let r1 := s.drop 7
    let a1 := r1.takeWhile (fun c => !(c == ',') && !(c == ')'))
    if a1.isEmpty then none
    else
      match r1.drop a1.length with
      | ',' :: r2 =>
        let gap := r2.takeWhile (fun c => !(c == ')'))
        if gap.isEmpty then none
        else
          match r2.drop gap.length with
          | ')' :: _ =>
            some ((".apply(".toList) ++ a1 ++ (", ".toList) ++
              gap.drop (min (r2.takeWhile isSpaceChar).length (gap.length - 1)) ++
              (" as any)".toList),
              7 + a1.length + 1 + gap.length + 1)
          | _ => none
      | _ => none
  else none

/-- Embeds `fix_type_mismatch` (lines 449-483): records `f"{file_path}:{line}:TS2345"`. -/
def fixTypeMismatch (w : World) (path : List Char) (line : Nat) : FixRes :=
  match w.files path with
  | none => ⟨false, w, []⟩
  | some content =>
    let lines := pyReadLines content
    if lines.length < line then ⟨false, w, []⟩
    else
      match pyLineGet lines line with
      | none => ⟨false, w, []⟩
      | some target =>
        if !(subL ("as any".toList) target) then
          if reSubAll applyMatch target == target then ⟨false, w, []⟩
          else ⟨true,
            setFile w path (joinLines (pyLineSet lines line (reSubAll applyMatch target))),
            [path ++ ':' :: (Nat.repr line).toList ++ ':' :: ("TS2345".toList)]⟩
        else ⟨false, w, []⟩

/-- Embeds `fix_typescript_error` (lines 264-317): resolve the file, then dispatch on
the diagnostic code. -/
def fixTypescript (root : List Char) (w : World) (app file : List Char) (line : Nat)
    (code msg : List Char) : FixRes :=
  match resolveTsFile root w app file with
  | none => ⟨false, w, []⟩
  | some path =>
    if code == ("TS2307".toList) then fixModuleNotFound w path line
    else if code == ("TS7006".toList) then fixImplicitAny w path line msg
    else if code == ("TS2339".toList) then fixPropertyNotExist w path line msg
    else if code == ("TS2345".toList) then fixTypeMismatch w path line
    else ⟨false, w, []⟩

/-- The strategy dispatch of the `run_fix_cycle` event loop (lines 536-549). -/
def dispatchEv (root : List Char) (w : World) (e : Ev) : FixRes :=
  match e.data with
  | .missingModule m _ => fixMissingModule w e.app m e.id
  | .noEmitCfg _ => fixTsconfigFile root w e.app e.id
  | .typescript file line _ code msg => fixTypescript root w e.app file line code msg
  | .runtimeEv _ => ⟨false, w, []⟩

/-- The strategies that record the triggering event's own id on success
(`fix_missing_module` and `fix_tsconfig_no_emit`; the typescript family
records a rebuilt string instead). -/
def recordsOwnId : EvData → Prop
  | .missingModule _ _ => True
  | .noEmitCfg _ => True
  | _ => False

/-- Embeds `restart_service` (lines 485-517): kill + relaunch with stdout redirected
to the (truncated) restart log file. -/
def restartWorld (root : List Char) (w : World) (app : List Char) : World :=
  setFile w (restartLogPath root app) []

structure StepOut where
  w : World
  fixed : List (List Char)
  fixes : Nat
  restarts : List (List Char)
  dispatched : List Ev
  applied : List Ev

/-- The event loop of `run_fix_cycle` (lines 532-549): skip events whose id is
already in the fixed set; otherwise run the strategy, and on success restart
the event's service immediately.  `dispatched` records the events that
reached a strategy, `applied` those whose strategy succeeded. -/
def runEvents (root : List Char) : List Ev → World → List (List Char) → Nat →
    List (List Char) → List Ev → List Ev → StepOut
  | [], w, fixed, fixes, restarts, disp, appl => ⟨w, fixed, fixes, restarts, disp, appl⟩
  | e :: es, w, fixed, fixes, restarts, disp, appl =>
    if fixed.contains e.id then runEvents root es w fixed fixes restarts disp appl
    else
      if (dispatchEv root w e).applied then
        runEvents root es (restartWorld root (dispatchEv root w e).world e.app)
          ((dispatchEv root w e).recorded ++ fixed) (fixes + 1)
          (restarts ++ [e.app]) (disp ++ [e]) (appl ++ [e])
      else
        runEvents root es (dispatchEv root w e).world
          ((dispatchEv root w e).recorded ++ fixed) fixes restarts (disp ++ [e]) appl

/-- Cross-cycle state owned by the controller. -/
structure CycleSt where
  seen : List (List Char)
  fixed : List (List Char)

structure CycleOut where
  st : CycleSt
  w : World
  fixes : Nat
  restarts : List (List Char)
  dispatched : List Ev
  applied : List Ev

/-- Embeds `run_fix_cycle` (lines 519-580): webpack scan, event loop, then the
runtime scan (which only logs but does update the seen set; a browser failure
yields nothing). -/
def runFixCycle (root : List Char) (w : World) (st : CycleSt) : CycleOut :=
  let p := webpackErrors root w.files st.seen
  let so := runEvents root p.1 w st.fixed 0 [] [] []
  let seen2 := match so.w.runtimeRecs with
    | none => p.2
    | some recs => (runtimeErrors recs p.2).2
  ⟨⟨seen2, so.fixed⟩, so.w, so.fixes, so.restarts, so.dispatched, so.applied⟩

/-- Several cycles with per-cycle external worlds (logs may have grown or
still contain stale content), threading the cross-cycle state; collects every
event that reached a strategy. -/
def runCycles (root : List Char) : List World → CycleSt → CycleSt × List Ev
  | [], st => (st, [])
  | w :: ws, st =>
    ((runCycles root ws (runFixCycle root w st).st).1,
     (runFixCycle root w st).dispatched ++
       (runCycles root ws (runFixCycle root w st).st).2)

/-! ## Claims C1, C4, C7 -/

lemma runEvents_cons_skip {root : List Char} {e : Ev} {es : List Ev} {w : World}
    {fixed : List (List Char)} {n : Nat} {rs : List (List Char)} {disp appl : List Ev}
    (h : fixed.contains e.id = true) :
    runEvents root (e :: es) w fixed n rs disp appl = runEvents root es w fixed n rs disp appl := by
  simp only [runEvents]; rw [if_pos h]

lemma runEvents_cons_hit {root : List Char} {e : Ev} {es : List Ev} {w : World}
    {fixed : List (List Char)} {n : Nat} {rs : List (List Char)} {disp appl : List Ev}
    (h : fixed.contains e.id = false) (ha : (dispatchEv root w e).applied = true) :
    runEvents root (e :: es) w fixed n rs disp appl =
      runEvents root es (restartWorld root (dispatchEv root w e).world e.app)
        ((dispatchEv root w e).recorded ++ fixed) (n + 1)
        (rs ++ [e.app]) (disp ++ [e]) (appl ++ [e]) := by
  simp only [runEvents]; rw [if_neg (by rw [h]; simp), if_pos ha]

lemma runEvents_cons_miss {root : List Char} {e : Ev} {es : List Ev} {w : World}
    {fixed : List (List Char)} {n : Nat} {rs : List (List Char)} {disp appl : List Ev}
    (h : fixed.contains e.id = false) (ha : (dispatchEv root w e).applied = false) :
    runEvents root (e :: es) w fixed n rs disp appl =
      runEvents root es (dispatchEv root w e).world
        ((dispatchEv root w e).recorded ++ fixed) n rs (disp ++ [e]) appl := by
  simp only [runEvents]; rw [if_neg (by rw [h]; simp), if_neg (by rw [ha]; simp)]

lemma runEvents_mono_fixed (root : List Char) :
    ∀ (es : List Ev) (w : World) (fixed : List (List Char)) (n : Nat)
      (rs : List (List Char)) (disp appl : List Ev) (a : List Char),
      a ∈ fixed → a ∈ (runEvents root es w fixed n rs disp appl).fixed := by
  intro es
  induction es with
  | nil => intro w fixed n rs disp appl a ha; simpa [runEvents] using ha
  | cons e es ih =>
    intro w fixed n rs disp appl a ha
    cases h : fixed.contains e.id with
    | true => rw [runEvents_cons_skip h]; exact ih _ _ _ _ _ _ a ha
    | false =>
      cases hd : (dispatchEv root w e).applied with
      | true =>
        rw [runEvents_cons_hit h hd]
        exact ih _ _ _ _ _ _ a (List.mem_append_right _ ha)
      | false =>
        rw [runEvents_cons_miss h hd]
        exact ih _ _ _ _ _ _ a (List.mem_append_right _ ha)

lemma runEvents_disp_not_fixed (root : List Char) :
    ∀ (es : List Ev) (w : World) (fixed : List (List Char)) (n : Nat)
      (rs : List (List Char)) (disp appl : List Ev) (fp : List Char),
      fp ∈ fixed → (∀ e ∈ disp, e.id ≠ fp) →
      ∀ e ∈ (runEvents root es w fixed n rs disp appl).dispatched, e.id ≠ fp := by
  intro es
  induction es with
  | nil => intro w fixed n rs disp appl fp _ hdisp e he; exact hdisp e (by simpa [runEvents] using he)
  | cons e es ih =>
    intro w fixed n rs disp appl fp hfp hdisp
    have hnew : ∀ e2 ∈ disp ++ [e], fixed.contains e.id = false → e2.id ≠ fp := by
      intro e2 he2 hcf
      rcases List.mem_append.mp he2 with hl | hr
      · exact hdisp e2 hl
      · rcases List.mem_singleton.mp hr with rfl
        intro heq
        have : fixed.contains e2.id = true := containsL_of_mem (by rw [heq]; exact hfp)
        rw [this] at hcf
        cases hcf
    cases h : fixed.contains e.id with
    | true =>
      rw [runEvents_cons_skip h]
      exact ih _ _ _ _ _ _ fp hfp hdisp
    | false =>
      cases hd : (dispatchEv root w e).applied with
      | true =>
        rw [runEvents_cons_hit h hd]
        exact ih _ _ _ _ _ _ fp (List.mem_append_right _ hfp) (fun e2 he2 => hnew e2 he2 h)
      | false =>
        rw [runEvents_cons_miss h hd]
        exact ih _ _ _ _ _ _ fp (List.mem_append_right _ hfp) (fun e2 he2 => hnew e2 he2 h)

lemma runEvents_restarts (root : List Char) :
    ∀ (es : List Ev) (w : World) (fixed : List (List Char)) (n : Nat)
      (rs : List (List Char)) (disp appl : List Ev),
      rs = appl.map Ev.app →
      (runEvents root es w fixed n rs disp appl).restarts =
        ((runEvents root es w fixed n rs disp appl).applied).map Ev.app := by
  intro es
  induction es with
  | nil => intro w fixed n rs disp appl hr; simpa [runEvents] using hr
  | cons e es ih =>
    intro w fixed n rs disp appl hr
    cases h : fixed.contains e.id with
    | true => rw [runEvents_cons_skip h]; exact ih _ _ _ _ _ _ hr
    | false =>
      cases hd : (dispatchEv root w e).applied with
      | true =>
        rw [runEvents_cons_hit h hd]
        exact ih _ _ _ _ _ _ (by rw [hr]; simp)
      | false =>
        rw [runEvents_cons_miss h hd]
        exact ih _ _ _ _ _ _ hr

/-- Claim C1 (amended) — (i) a fingerprint in the fixed set is never passed to a
strategy again, in the same or any later cycle, whatever the log sources
report; (ii) the `missing_module` and `tsconfig_no_emit` strategies record
exactly the triggering event's id (the typescript-family strategies record a
rebuilt `resolved-path:line:TS<code>` string instead — see the
counterexample). -/
theorem c1_no_refix_amended :
    (∀ (root : List Char) (ws : List World) (st : CycleSt) (fp : List Char),
      fp ∈ st.fixed → ∀ e ∈ (runCycles root ws st).2, e.id ≠ fp) ∧
    (∀ (root : List Char) (w : World) (e : Ev), recordsOwnId e.data →
      ∀ fp ∈ (dispatchEv root w e).recorded, fp = e.id) := by
  constructor
  · intro root ws
    induction ws with
    | nil => intro st fp _ e he; simp [runCycles] at he
    | cons w ws ih =>
      intro st fp hfp e he
      simp only [runCycles] at he
      rcases List.mem_append.mp he with h1 | h2
      · exact runEvents_disp_not_fixed root _ w st.fixed 0 [] [] [] fp hfp
          (fun x hx => absurd hx (List.not_mem_nil x)) e h1
      · refine ih (runFixCycle root w st).st fp ?_ e h2
        exact runEvents_mono_fixed root _ w st.fixed 0 [] [] [] fp hfp
  · intro root w e hkind fp hfp
    rcases e with ⟨app, eid, data⟩
    cases data with
    | missingModule m loc =>
      simp only [dispatchEv, fixMissingModule] at hfp
      split at hfp
      · simpa using hfp
      · simp at hfp
    | noEmitCfg f =>
      simp only [dispatchEv, fixTsconfigFile] at hfp
      split at hfp
      · simp at hfp
      · split at hfp
        · simpa using hfp
        · simp at hfp
    | typescript file line col code msg => exact hkind.elim
    | runtimeEv p => exact hkind.elim

def c1LogContent : List Char :=
  "ERROR in ./src/A.tsx\n[tsl] ERROR in ./src/A.tsx(1,1)\n TS2307: x\n\n".toList

def c1SrcPath : List Char := "/r/frontend/container/src/A.tsx".toList

def c1World : World :=
  { files := fun p =>
      if p == adapterLogPath rootC containerName then some c1LogContent
      else if p == c1SrcPath then some ("import B from '../shared-ui-lib';\n".toList)
      else none
    installOk := fun _ _ => true
    runtimeRecs := some [] }

/-- Counterexample for `C1` as stated: a `TS2307` diagnostic event with id
`./src/A.tsx:1:2307` is fixed, but the fingerprint recorded in the fixed set
is `/r/frontend/container/src/A.tsx:1:TS2307` — not the event's id. -/
theorem c1_counterexample :
    (runFixCycle rootC c1World ⟨[], []⟩).fixes = 1 ∧
    (runFixCycle rootC c1World ⟨[], []⟩).st.fixed =
      ["/r/frontend/container/src/A.tsx:1:TS2307".toList] ∧
    (runFixCycle rootC c1World ⟨[], []⟩).dispatched.map Ev.id =
      ["./src/A.tsx:1:2307".toList] ∧
    ("./src/A.tsx:1:2307".toList) ∉ (runFixCycle rootC c1World ⟨[], []⟩).st.fixed := by
  decide

def c1bContent : List Char :=
  ("ERROR in q\nModule not found: Error: Can't resolve 'a' in 'd'\n" ++
   "Module not found: Error: Can't resolve 'b' in 'd'\n").toList

def c1bWorld : World :=
  { files := fun p =>
      if p == adapterLogPath rootC containerName then some c1bContent else none
    installOk := fun _ _ => true
    runtimeRecs := some [] }

def fpMissingA : List Char := "missing:a".toList

/-- Witness for `C1`: with `missing:a` in the fixed set, the only dispatched
event of a cycle reporting both modules is the one for `b`, and the
missing-module strategy records exactly the triggering id. -/
theorem c1_witness :
    (modEvent containerName ⟨"b".toList, "d".toList⟩).id ≠ fpMissingA ∧
    fpMissingA = (modEvent containerName ⟨"a".toList, "d".toList⟩).id :=
  ⟨c1_no_refix_amended.1 rootC [c1bWorld] ⟨[], [fpMissingA]⟩ fpMissingA (by decide)
      (modEvent containerName ⟨"b".toList, "d".toList⟩) (by decide),
   c1_no_refix_amended.2 rootC c1bWorld (modEvent containerName ⟨"a".toList, "d".toList⟩)
      trivial fpMissingA (by decide)⟩

/-- Claim C4 (amended) — within one cycle a service is restarted once per
successful fix that targets it (immediately after each fix), not once per
distinct service. -/
theorem c4_restart_per_fix (root : List Char) (w : World) (st : CycleSt) :
    (runFixCycle root w st).restarts = (runFixCycle root w st).applied.map Ev.app :=
  runEvents_restarts root (webpackErrors root w.files st.seen).1 w st.fixed 0 [] [] [] rfl

/-- Counterexample for `C4` as stated: two missing-module fixes for the same
service in one cycle restart it twice, not exactly once. -/
theorem c4_counterexample :
    (runFixCycle rootC c1bWorld ⟨[], []⟩).restarts = [containerName, containerName] ∧
    (runFixCycle rootC c1bWorld ⟨[], []⟩).restarts.count containerName = 2 := by
  decide

/-- Claim C7 (amended) — the implicit-any strategy declines with no modification
when the parameter name cannot be extracted, and more generally any declined
call leaves the world untouched; when it does act, it rewrites every
word-boundary occurrence of the parameter not already followed by a colon
(see the counterexample for the two-occurrence behaviour). -/
theorem c7_implicit_any_amended :
    (∀ (w : World) (path : List Char) (line : Nat) (msg : List Char),
      extractParam msg = none → fixImplicitAny w path line msg = ⟨false, w, []⟩) ∧
    (∀ (w : World) (path : List Char) (line : Nat) (msg : List Char),
      (fixImplicitAny w path line msg).applied = false →
      (fixImplicitAny w path line msg).world = w) := by
  constructor
  · intro w path line msg h
    simp [fixImplicitAny, h]
  · intro w path line msg h
    rcases hep : extractParam msg with _ | param
    · simp [fixImplicitAny, hep]
    · rcases hf : w.files path with _ | content
      · simp [fixImplicitAny, hep, hf]
      · by_cases hlen : (pyReadLines content).length < line
        · simp [fixImplicitAny, hep, hf, hlen]
        · rcases hg : pyLineGet (pyReadLines content) line with _ | target
          · simp [fixImplicitAny, hep, hf, hlen, hg]
          · by_cases hup : (subParam param target == target) = true
            · simp [fixImplicitAny, hep, hf, hlen, hg, hup]
            · exfalso
              simp [fixImplicitAny, hep, hf, hlen, hg, hup] at h

def c7Msg : List Char := "Parameter 'x' implicitly has an 'any' type.".toList

def c7Path : List Char := "/r/f.tsx".toList

def c7World : World :=
  { files := fun p => if p == c7Path then some ("const add = (x) => x + 1;\n".toList) else none
    installOk := fun _ _ => false
    runtimeRecs := none }

/-- Counterexample for `C7` as stated: `re.sub` without `count=1` rewrites
both occurrences of `x` on the line, not only the first. -/
theorem c7_counterexample :
    (fixImplicitAny c7World c7Path 1 c7Msg).applied = true ∧
    (fixImplicitAny c7World c7Path 1 c7Msg).world.files c7Path =
      some ("const add = (x: any) => x: any + 1;\n".toList) ∧
    ("const add = (x: any) => x: any + 1;\n".toList) ≠
      ("const add = (x: any) => x + 1;\n".toList) := by
  decide

/-- Witness for `C7` at a message without an extractable parameter and a
declined call on an out-of-range line. -/
theorem c7_witness :
    fixImplicitAny c7World c7Path 1 ("no parameter name here".toList) =
      ⟨false, c7World, []⟩ ∧
    (fixImplicitAny c7World c7Path 5 c7Msg).world = c7World :=
  ⟨c7_implicit_any_amended.1 c7World c7Path 1 ("no parameter name here".toList) (by decide),
   c7_implicit_any_amended.2 c7World c7Path 5 c7Msg (by decide)⟩

/-! ## The controller loop and exit code (claims C3, C5) -/

structure RunOut where
  cycles : Nat
  totalFixes : Nat
  sleeps : Nat
  st : CycleSt

/-- The `RUNNING` loop of `run` (lines 598-614): while `iteration <
max_iterations`, run one fix cycle; a cycle with zero fixes at `iteration ≥ 3`
breaks out *before* the sleep (`if self.iteration >= 3: break` — the raw
iteration count, not a consecutive-zero-fix counter); every other cycle ends
with a sleep.  `fuel` is the remaining iteration budget. -/
def runLoopAux (root : List Char) (env : Nat → World) :
    Nat → Nat → Nat → Nat → CycleSt → RunOut
  | 0, iter, total, sleeps, st => ⟨iter, total, sleeps, st⟩
  | fuel + 1, iter, total, sleeps, st =>
    if (runFixCycle root (env (iter + 1)) st).fixes = 0 ∧ 3 ≤ iter + 1 then
      ⟨iter + 1, total + (runFixCycle root (env (iter + 1)) st).fixes, sleeps,
        (runFixCycle root (env (iter + 1)) st).st⟩
    else
      runLoopAux root env fuel (iter + 1)
        (total + (runFixCycle root (env (iter + 1)) st).fixes) (sleeps + 1)
        (runFixCycle root (env (iter + 1)) st).st

def runLoop (root : List Char) (env : Nat → World) (maxIter : Nat) : RunOut :=
  runLoopAux root env maxIter 0 0 0 ⟨[], []⟩

/-- Embeds `run` (lines 582-624): the pre-flight health check gates the loop; the
returned flag is `total_fixes > 0` (the loop is never entered when some
service is unhealthy). -/
def runModel (healthy : Bool) (root : List Char) (env : Nat → World) (maxIter : Nat) :
    Bool × RunOut :=
  if healthy then
    (decide (0 < (runLoop root env maxIter).totalFixes), runLoop root env maxIter)
  else (false, ⟨0, 0, 0, ⟨[], []⟩⟩)

/-- Embeds `main` (line 642): `sys.exit(0 if success else 1)`. -/
def exitCode (healthy : Bool) (root : List Char) (env : Nat → World) (maxIter : Nat) : Nat :=
  if (runModel healthy root env maxIter).1 then 0 else 1

/-- Claim C5 — the exit code is 0 iff at least one fix was applied over the run
(0 fixes when the loop is never entered), and a failed pre-flight health
check exits with 1 having run zero cycles. -/
theorem c5_exit_code :
    (∀ (healthy : Bool) (root : List Char) (env : Nat → World) (maxIter : Nat),
      exitCode healthy root env maxIter = 0 ↔
        0 < (runModel healthy root env maxIter).2.totalFixes) ∧
    (∀ (root : List Char) (env : Nat → World) (maxIter : Nat),
      exitCode false root env maxIter = 1 ∧ (runModel false root env maxIter).2.cycles = 0) := by
  constructor
  · intro healthy root env maxIter
    cases healthy with
    | false => simp [exitCode, runModel]
    | true =>
      by_cases h : 0 < (runLoop root env maxIter).totalFixes
      · simp [exitCode, runModel, h]
      · simp [exitCode, runModel, h]
  · intro root env maxIter
    constructor <;> simp [exitCode, runModel]

def emptyWorld : World :=
  { files := fun _ => none, installOk := fun _ _ => true, runtimeRecs := some [] }

def c3ModWorld (m : List Char) : World :=
  { files := fun p =>
      if p == adapterLogPath rootC containerName then
        some (("ERROR in q\nModule not found: Error: Can't resolve '".toList) ++ m ++
          ("' in 'd'\n".toList))
      else none
    installOk := fun _ _ => true
    runtimeRecs := some [] }

/-- Fix schedule 1,1,1,0,…: a fresh missing module in each of the first three
cycles, then nothing. -/
def c3Env : Nat → World := fun i =>
  if i = 1 then c3ModWorld ("a".toList)
  else if i = 2 then c3ModWorld ("b".toList)
  else if i = 3 then c3ModWorld ("c".toList)
  else emptyWorld

/-- Claim C3 — evaluation at the failing input: with fixes in cycles 1-3 and none
afterwards, the loop stops after cycle 4 (a single zero-fix cycle, because the
code tests the raw iteration count), not after three consecutive zero-fix
cycles; an all-zero run does stop after exactly 3 cycles with 2 sleeps (no
sleep after the final cycle). -/
theorem c3_stop_condition_eval :
    (runLoop rootC c3Env 10).cycles = 4 ∧
    (runLoop rootC c3Env 10).totalFixes = 3 ∧
    (runLoop rootC (fun _ => emptyWorld) 10).cycles = 3 ∧
    (runLoop rootC (fun _ => emptyWorld) 10).totalFixes = 0 ∧
    (runLoop rootC (fun _ => emptyWorld) 10).sleeps = 2 := by
  decide
